import Mathlib

/-!
# Verification of the syncora-analytics-bot synthetic event generator

Shallow embedding of the quota-constrained synthetic event generator with
monthly target reconciliation (repository `syncora-analytics-bot`).

Conventions used throughout:
* JavaScript numbers (IEEE doubles) are idealised as exact rationals `ℚ`;
  timestamps are epoch milliseconds as `ℚ`.
* `Math.random()` draws and `faker` draws are modelled as explicit oracle
  parameters (`ℚ` values in `[0, 1)`, or streams `ℕ → ℚ`); theorems carry the
  range facts as hypotheses.
* `JSON.round` / `Math.round` is Lean's `round` (both are `⌊x + 1/2⌋`);
  `Math.floor` is `⌊·⌋`.
* JavaScript `Map` objects are modelled as association lists with
  first-match lookup (`Map.set` becomes a shadowing cons).
-/

set_option maxHeartbeats 1000000

namespace SyncoraBot

/-! ## Definitions: `src/unnamed/part_000` (generate_users script) -/

namespace GenUsers

/-- `randDate(start, end)` from `src/unnamed/part_000` line 147:
`new Date(start.getTime() + Math.random() * (end.getTime() - start.getTime()))`,
with the `Math.random()` draw `r` made explicit. -/
def randDate (start endT r : ℚ) : ℚ :=
  start + r * (endT - start)

/-- The mutable `quota` object of `src/unnamed/part_000` lines 70-75:
one remaining-signup counter per region. -/
structure Quota where
  IN : ℤ
  US : ℤ
  EU : ℤ
deriving DecidableEq

inductive Region
  | IN
  | US
  | EU
deriving DecidableEq

/-- `pickRegion()` from `src/unnamed/part_000` lines 150-163, with the
`Math.random()` draw `r` explicit.  Rolls `r * totalLeft`, walks the quota
buckets in declared order and decrements the bucket the roll lands in. -/
def pickRegion (q : Quota) (r : ℚ) : Region × Quota :=
  let totalLeft : ℚ := (q.IN : ℚ) + (q.US : ℚ) + (q.EU : ℚ)
  let roll := r * totalLeft
  if roll < (q.IN : ℚ) then (Region.IN, { q with IN := q.IN - 1 })
  else if roll < (q.IN : ℚ) + (q.US : ℚ) then (Region.US, { q with US := q.US - 1 })
  else (Region.EU, { q with EU := q.EU - 1 })

def quotaTotal (q : Quota) : ℤ := q.IN + q.US + q.EU

def quotaNonneg (q : Quota) : Prop := 0 ≤ q.IN ∧ 0 ≤ q.US ∧ 0 ≤ q.EU

/-- One record pushed onto `dataFinal` by STEP 1 of `generateUsers`
(`src/unnamed/part_000` lines 277-298).  The city/property bundle built by
`buildProps` carries no information relevant to the claims and is omitted;
the region pick is retained. -/
structure SignupEvent where
  distinct_id : String
  event : String
  timestamp : ℚ
  region : Region
deriving DecidableEq

/-- STEP 1 of `generateUsers` (`src/unnamed/part_000` lines 277-298): the
loop `for (let i = 0; i < signups; i++)` that draws a sign-up date, picks a
region (decrementing its quota) and pushes exactly one `user-sign-up` event.
`ids i` stands for `uuidv4()`, `rd i` and `rp i` for the `Math.random()`
draws of `randDate` and `pickRegion` at iteration `i`. -/
def generateSignups (monthStart monthEnd : ℚ) (ids : ℕ → String) (rd rp : ℕ → ℚ) :
    ℕ → ℕ → Quota → List SignupEvent × Quota
  | _, 0, q => ([], q)
  | i, n + 1, q =>
    let signUpDate := randDate monthStart monthEnd (rd i)
    let pr := pickRegion q (rp i)
    let rest := generateSignups monthStart monthEnd ids rd rp (i + 1) n pr.2
    ({ distinct_id := ids i, event := "user-sign-up", timestamp := signUpDate,
       region := pr.1 } :: rest.1, rest.2)

/-- A user as stored in `allUsers` (`src/unnamed/part_000` line 260),
restricted to the fields the claims mention. -/
structure UserR where
  id : String
  signUpDate : ℚ
deriving DecidableEq

/-- The eligibility filter of STEP 2 (`src/unnamed/part_000` line 305):
`allUsers.filter((u) => u.signUpDate <= day)`. -/
def eligibleOnDay (allUsers : List UserR) (day : ℚ) : List UserR :=
  allUsers.filter (fun u => decide (u.signUpDate ≤ day))

/-- `faker.number.int({min, max})` (inclusive bounds) modelled as
`min + ⌊r * (max + 1 - min)⌋` for a uniform draw `r ∈ [0, 1)`. -/
def fakerInt (lo hi : ℕ) (r : ℚ) : ℕ :=
  lo + (⌊r * ((hi : ℚ) + 1 - (lo : ℚ))⌋).toNat

/-- `getDailyUserCount` from `src/unnamed/part_000` lines 262-265:
`min = Math.floor(target * 0.6); faker.number.int({ min, max: target })`. -/
def getDailyUserCount (target : ℕ) (r : ℚ) : ℕ :=
  fakerInt (⌊(target : ℚ) * (6 / 10)⌋).toNat target r

/-- The per-day active count actually used by STEP 2
(`src/unnamed/part_000` line 306):
`Math.min(getDailyUserCount(dau), eligible.length)`. -/
def dailyActiveCount (allUsers : List UserR) (day : ℚ) (dau : ℕ) (r : ℚ) : ℕ :=
  min (getDailyUserCount dau r) (eligibleOnDay allUsers day).length

/-- The timestamp of a daily active event (`src/unnamed/part_000` line 310):
`randDate(day, new Date(day.getTime() + 12 * 60 * 60 * 1000))`. -/
def dailyActiveTs (day r : ℚ) : ℚ :=
  randDate day (day + 12 * 60 * 60 * 1000) r

/-- One `user-active` record pushed onto `dataFinal`
(`src/unnamed/part_000` lines 323-331 and 359-367). -/
structure ActiveEvent where
  distinct_id : String
  event : String
  timestamp : ℚ
deriving DecidableEq

/-- The timestamp of a monthly-active top-up event
(`src/unnamed/part_000` line 346): `randDate(monthStart, monthEnd)`. -/
def mauTopUpTs (monthStart monthEnd r : ℚ) : ℚ :=
  randDate monthStart monthEnd r

/-- STEP 3 of `generateUsers` (`src/unnamed/part_000` lines 336-369): if the
month's distinct-active count is below `mau`, pick additional not-yet-active
eligible users (the `faker.helpers.arrayElements` draw is the oracle `pick`,
which selects `n` of its argument list) and emit one `user-active` event per
picked user, timestamped by `randDate(monthStart, monthEnd)`. -/
def mauTopUp (allUsers : List UserR) (monthlyActives : List String) (mau : ℕ)
    (monthStart monthEnd : ℚ) (pick : List UserR → ℕ → List UserR) (rs : ℕ → ℚ) :
    List ActiveEvent :=
  if monthlyActives.length < mau then
    let eligible := allUsers.filter
      (fun u => decide (u.signUpDate ≤ monthEnd) && !(monthlyActives.contains u.id))
    let toAdd := pick eligible (min (mau - monthlyActives.length) eligible.length)
    toAdd.enum.map (fun p =>
      { distinct_id := p.2.id, event := "user-active",
        timestamp := mauTopUpTs monthStart monthEnd (rs p.1) })
  else []

/-- Concrete user for the claim-C2 counterexample: signed up at time 50
inside the period `[0, 100]`. -/
def cexUser : UserR := { id := "u1", signUpDate := 50 }

end GenUsers

/-! ## Definitions: geo deduplication (`src/unnamed/part_000` lines 139, 171-185) -/

namespace Geo

/-- A rounded `(lat, lon)` pair.  The source keys the map by the string
`lat + "_" + lon`, which is in bijection with the pair itself. -/
abbrev GeoKey := ℚ × ℚ

/-- The process-lifetime `geoUsage` map (`src/unnamed/part_000` line 139),
as an association list with first-match lookup. -/
abbrev GeoUsage := List (GeoKey × ℕ)

/-- `geoUsage.get(key) ?? 0`. -/
def getCount : GeoUsage → GeoKey → ℕ
  | [], _ => 0
  | (k', c) :: rest, k => if k' = k then c else getCount rest k

/-- `geoUsage.set(key, v)`: a shadowing cons (lookup takes the first match). -/
def setCount (geoUsage : GeoUsage) (k : GeoKey) (c : ℕ) : GeoUsage :=
  (k, c) :: geoUsage

/-- `(x).toFixed(3)` coerced back to a number: round to 3 decimal digits. -/
def round3 (x : ℚ) : ℚ := (round (x * 1000) : ℚ) / 1000

/-- `uniqueLatLon(baseLat, baseLon)` from `src/unnamed/part_000` lines
171-185.  The source is `while (true) { ... }`: it draws jitter (the oracle
`jitter i` stands for the pair of `faker.number.float({min:-0.02,max:0.02})`
draws of iteration `i`), rounds, and returns the pair after incrementing its
usage count when the count is `< 3`, otherwise retries.  `fuel` counts loop
iterations; `none` means the loop is still running after `fuel` iterations —
the source has no retry bound and no error exit. -/
def uniqueLatLon (baseLat baseLon : ℚ) (jitter : ℕ → ℚ × ℚ) (geoUsage : GeoUsage) :
    ℕ → Option (GeoKey × GeoUsage)
  | 0 => none
  | fuel + 1 =>
    let lat := round3 (baseLat + (jitter 0).1)
    let lon := round3 (baseLon + (jitter 0).2)
    let key : GeoKey := (lat, lon)
    if getCount geoUsage key < 3 then
      some (key, setCount geoUsage key (getCount geoUsage key + 1))
    else uniqueLatLon baseLat baseLon (fun i => jitter (i + 1)) geoUsage fuel

/-- The ≤ 3 cap on every rounded pair. -/
def CacheBounded (g : GeoUsage) : Prop := ∀ k, getCount g k ≤ 3

/-- A whole run of geo assignments: `uniqueLatLon` is called once per created
entity (from `buildProps`, `src/unnamed/part_000` line 193), threading the
shared `geoUsage` map through.  Each entry is a base coordinate paired with
its jitter draw stream. -/
def assignAll (fuel : ℕ) : List ((ℚ × ℚ) × (ℕ → ℚ × ℚ)) → GeoUsage →
    Option (List GeoKey × GeoUsage)
  | [], g => some ([], g)
  | e :: rest, g =>
    match uniqueLatLon e.1.1 e.1.2 e.2 g fuel with
    | none => none
    | some (p, g') =>
      match assignAll fuel rest g' with
      | none => none
      | some (ps, gf) => some (p :: ps, gf)

end Geo

/-! ## Definitions: `src/src/ticket.ts` (ticket lifecycle) -/

namespace Tickets

/-- A `TicketEvent` (`src/src/ticket.ts` lines 5-11).  `isRaise = true`
stands for `event: "ticket-raised"`, `false` for `"ticket-resolved"`. -/
structure TEvent where
  isRaise : Bool
  ticketId : String
  timestamp : ℚ
  email : String
  username : String
deriving DecidableEq

/-- An entry of `raisedTickets` (`src/src/ticket.ts` lines 57-61). -/
structure RaisedTicket where
  id : String
  email : String
  username : String
  timestamp : ℚ
deriving DecidableEq

/-- One month of the `targets` table together with that month's random
draws: `raiseDraw k` is the timestamp produced by
`createTimestamp(randomPick(days))` for the month's `k`-th raise (a time
within the month), `emailDraw`/`usernameDraw` the `randomPick(users)` result,
`shuffleDraw` the outcome of `.sort(() => Math.random() - 0.5)` (some
permutation of its input), and `resolveDraw j` the `Math.random()` draw used
for the `j`-th resolution timestamp. -/
structure MonthInput where
  monthStart : ℚ
  monthEnd : ℚ
  ticketsRaised : ℕ
  ticketsResolved : ℕ
  raiseDraw : ℕ → ℚ
  emailDraw : ℕ → String
  usernameDraw : ℕ → String
  shuffleDraw : List RaisedTicket → List RaisedTicket
  resolveDraw : ℕ → ℚ

/-- The mutable top-level state of `src/src/ticket.ts` lines 56-62:
`events`, `raisedTickets` and `ticketCounter` (initialised to 1). -/
structure GenState where
  events : List TEvent
  raisedTickets : List RaisedTicket
  ticketCounter : ℕ

/-- The `ticket-raised` event pushed for a raised ticket
(`src/src/ticket.ts` lines 78-84). -/
def raiseEventOf (tk : RaisedTicket) : TEvent :=
  { isRaise := true, ticketId := tk.id, timestamp := tk.timestamp,
    email := tk.email, username := tk.username }

/-- One iteration of the raise loop (`src/src/ticket.ts` lines 69-87):
generate a ticket id from the counter (`faker.seed(ticketCounter * 100)`
followed by `faker.string.alphanumeric(8)` — the oracle `idGen` applied to
the counter), push the ticket and its `ticket-raised` event, bump the
counter. -/
def raiseOne (idGen : ℕ → String) (m : MonthInput) (k : ℕ) (s : GenState) : GenState :=
  let tk : RaisedTicket :=
    { id := idGen s.ticketCounter, email := m.emailDraw k,
      username := m.usernameDraw k, timestamp := m.raiseDraw k }
  { events := s.events ++ [raiseEventOf tk],
    raisedTickets := s.raisedTickets ++ [tk],
    ticketCounter := s.ticketCounter + 1 }

/-- The raise loop `for (let i = 0; i < ticketsRaised; i++)`. -/
def raiseLoop (idGen : ℕ → String) (m : MonthInput) : ℕ → ℕ → GenState → GenState
  | _, 0, s => s
  | k, n + 1, s => raiseLoop idGen m (k + 1) n (raiseOne idGen m k s)

/-- `events.some((event) => event.event === "ticket-resolved" &&
event.ticketId === ticket.id)` (`src/src/ticket.ts` lines 92-95). -/
def isResolvedIn (events : List TEvent) (tk : RaisedTicket) : Bool :=
  events.any (fun e => !e.isRaise && e.ticketId == tk.id)

/-- `unresolvedTickets` (`src/src/ticket.ts` lines 90-96): raised tickets
with no matching resolved event. -/
def unresolvedOf (s : GenState) : List RaisedTicket :=
  s.raisedTickets.filter (fun tk => !(isResolvedIn s.events tk))

/-- The body of the resolution loop (`src/src/ticket.ts` lines 102-123)
applied to the chosen tickets in order, with the loop position `j` indexing
the `Math.random()` draw: `resolveStart = max(raisedDate, monthStart)`,
`resolveTime = resolveStart + r * (monthEnd - resolveStart)`. -/
def resolveEventsFor (m : MonthInput) : ℕ → List RaisedTicket → List TEvent
  | _, [] => []
  | j, tk :: rest =>
    let resolveStart := max tk.timestamp m.monthStart
    let resolveTime := resolveStart + m.resolveDraw j * (m.monthEnd - resolveStart)
    { isRaise := false, ticketId := tk.id, timestamp := resolveTime,
      email := tk.email, username := tk.username }
      :: resolveEventsFor m (j + 1) rest

/-- The resolution step of one month (`src/src/ticket.ts` lines 89-123):
shuffle the unresolved tickets, take
`min(ticketsResolved, unresolvedTickets.length)` of them and push one
`ticket-resolved` event each. -/
def monthResolve (m : MonthInput) (s : GenState) : GenState :=
  let unresolvedTickets := unresolvedOf s
  let ticketsToResolve :=
    (m.shuffleDraw unresolvedTickets).take
      (min m.ticketsResolved unresolvedTickets.length)
  { s with events := s.events ++ resolveEventsFor m 0 ticketsToResolve }

/-- One month of the main loop (`src/src/ticket.ts` lines 65-124): raises
then resolutions. -/
def processMonth (idGen : ℕ → String) (m : MonthInput) (s : GenState) : GenState :=
  monthResolve m (raiseLoop idGen m 0 m.ticketsRaised s)

/-- The whole run over the `targets` table, starting from empty state with
`ticketCounter = 1`. -/
def runTickets (idGen : ℕ → String) (months : List MonthInput) : GenState :=
  months.foldl (fun s m => processMonth idGen m s) ⟨[], [], 1⟩

/-- `events.sort((a, b) => time(a) - time(b))` (`src/src/ticket.ts` lines
127-129).  JavaScript `Array.prototype.sort` is stable, so the result is the
unique stable sort by timestamp; `List.insertionSort` with `≤` on timestamps
is that stable sort. -/
def sortByTs (events : List TEvent) : List TEvent :=
  List.insertionSort (fun a b => a.timestamp ≤ b.timestamp) events

/-- Well-formedness of one month's inputs, reflecting what the source
guarantees: `createTimestamp(randomPick(days))` lies inside the month,
`Math.random() ∈ [0, 1)`, and a comparator-based `.sort` returns a
permutation of its input. -/
def MonthOk (m : MonthInput) : Prop :=
  m.monthStart ≤ m.monthEnd ∧
  (∀ k, m.monthStart ≤ m.raiseDraw k ∧ m.raiseDraw k ≤ m.monthEnd) ∧
  (∀ k, 0 ≤ m.resolveDraw k ∧ m.resolveDraw k < 1) ∧
  (∀ l, (m.shuffleDraw l).Perm l)

/-- Generation-state invariant, relative to the full `months` table and a
time bound `B` dominating all raise timestamps so far. -/
def Inv (idGen : ℕ → String) (months : List MonthInput) (s : GenState) (B : ℚ) : Prop :=
  s.events.filter (fun e => e.isRaise) = s.raisedTickets.map raiseEventOf ∧
  s.ticketCounter = 1 + s.raisedTickets.length ∧
  s.raisedTickets.map (fun tk => tk.id) =
    (List.range s.raisedTickets.length).map (fun j => idGen (1 + j)) ∧
  (∀ tk ∈ s.raisedTickets, tk.timestamp ≤ B) ∧
  ((s.events.filter (fun e => !e.isRaise)).map (fun e => e.ticketId)).Nodup ∧
  (∀ e ∈ s.events, e.isRaise = false →
     ∃ tk ∈ s.raisedTickets, tk.id = e.ticketId ∧
       List.Sublist [raiseEventOf tk, e] s.events ∧
       ∃ m ∈ months, max tk.timestamp m.monthStart ≤ e.timestamp ∧
         e.timestamp ≤ m.monthEnd)

/-- Injective ticket-id generator used by the claim-C6 witness. -/
def wIdGen (n : ℕ) : String := String.mk (List.replicate n 'a')

/-- Concrete single-month input used by the claim-C6 witness: one raise at
time 50 in the window `[0, 100]`, one resolution with draw 0. -/
def wMonth : MonthInput :=
  { monthStart := 0, monthEnd := 100, ticketsRaised := 1, ticketsResolved := 1,
    raiseDraw := fun _ => 50, emailDraw := fun _ => "e", usernameDraw := fun _ => "n",
    shuffleDraw := fun l => l, resolveDraw := fun _ => 0 }

end Tickets

/-! ## Definitions: `src/unnamed/part_003` (data events; Phase 2 of
`src/unnamed/part_002` lines 231-287 is textually identical) -/

namespace DataGen

/-- A `DataEvent` (`src/unnamed/part_003` lines 10-19); `file_size` is in
MB, `data_type` is the constant `"jsonl"` and is omitted. -/
structure DataEvent where
  words : ℤ
  file_size : ℚ
  email : String
  timestamp : ℚ
  user_id : String
  projectId : String
deriving DecidableEq

/-- `calculateWordsFromFileSize` (`src/unnamed/part_003` lines 135-141):
`Math.round(fileSizeMB * 1024 * 1024 / 8.6)`, with the literal `8.6`
idealised as `43/5`. -/
def calculateWordsFromFileSize (fileSizeMB : ℚ) : ℤ :=
  round (fileSizeMB * 1024 * 1024 / (43 / 5))

/-- `monthEvents.reduce((sum, event) => sum + event.file_size, 0)`. -/
def sumFileSize (events : List DataEvent) : ℚ :=
  (events.map (fun e => e.file_size)).sum

/-- The deficit-correction loop of Phase 2 (`src/unnamed/part_003` lines
344-359): each event gains `additionalFileSize` (the `faker.number.float`
draw, oracle `draw i` for the `i`-th event), its word count is recomputed,
and the loop breaks once the running total reaches `targetIdeal`, leaving
the remaining events untouched. -/
def boostLoop (targetIdeal : ℚ) (draw : ℕ → ℚ) :
    List DataEvent → ℕ → ℚ → List DataEvent
  | [], _, _ => []
  | e :: rest, i, total =>
    let additionalFileSize := draw i
    let e' : DataEvent :=
      { e with file_size := e.file_size + additionalFileSize,
               words := calculateWordsFromFileSize (e.file_size + additionalFileSize) }
    let total' := total + additionalFileSize
    if targetIdeal ≤ total' then e' :: rest
    else e' :: boostLoop targetIdeal draw rest (i + 1) total'

/-- The overage-correction branch of Phase 2 (`src/unnamed/part_003` lines
360-374): scale every event by `scaleFactor`, clamping at 0.1 MB, and
recompute the word counts. -/
def scaleLoop (scaleFactor : ℚ) (monthEvents : List DataEvent) : List DataEvent :=
  monthEvents.map (fun e =>
    let newFileSize := max (1 / 10) (e.file_size * scaleFactor)
    { e with file_size := newFileSize,
             words := calculateWordsFromFileSize newFileSize })

/-- Phase 2 of `generateDataEventsForMonth` (`src/unnamed/part_003` lines
320-374; identically `src/unnamed/part_002` lines 231-281).  `rIdeal` is the
`faker.number.float({min: 1.1, max: 1.15})` draw.  At entry the running
Phase-1 total `totalFileSizeGenerated` equals the sum of the month's
`data_generated` events' file sizes (every event generated in the month's
day loop is timestamped inside the month, so the month filter recovers
exactly those events). -/
def phase2Adjust (targetFileSizeMB rIdeal : ℚ) (draw : ℕ → ℚ)
    (monthEvents : List DataEvent) : List DataEvent :=
  let totalFileSizeGenerated := sumFileSize monthEvents
  let targetMinimum := targetFileSizeMB
  let targetIdeal := targetFileSizeMB * rIdeal
  if totalFileSizeGenerated < targetMinimum then
    if 0 < monthEvents.length then
      boostLoop targetIdeal draw monthEvents 0 totalFileSizeGenerated
    else monthEvents
  else if targetFileSizeMB * (6 / 5) < totalFileSizeGenerated then
    scaleLoop (targetFileSizeMB * (23 / 20) / totalFileSizeGenerated) monthEvents
  else monthEvents

/-- Frame relation for Phase 2: identity and magnitude fields only may
change, and a changed event has its word count recomputed from its new file
size. -/
def phase2Frame (a b : DataEvent) : Prop :=
  b.email = a.email ∧ b.timestamp = a.timestamp ∧ b.user_id = a.user_id ∧
  b.projectId = a.projectId ∧
  (b = a ∨ b.words = calculateWordsFromFileSize b.file_size)

/-- Concrete Phase-1 output for the claim-C1 counterexample: one event of
10 MB (10% of a 100 MB target). -/
def cexEvent : DataEvent :=
  { words := calculateWordsFromFileSize 10, file_size := 10, email := "a@b.c",
    timestamp := 0, user_id := "u1", projectId := "p1" }

/-- Concrete in-band Phase-1 output for the claim-C1 witness: one event of
11 MB against a 10 MB target. -/
def bandEvent : DataEvent :=
  { words := calculateWordsFromFileSize 11, file_size := 11, email := "a@b.c",
    timestamp := 0, user_id := "u1", projectId := "p1" }

/-- `errorMessages` (`src/unnamed/part_003` lines 262-271). -/
def errorMessages : List String :=
  ["Insufficient storage space", "Network timeout during processing",
   "Invalid data format detected", "Memory allocation failed",
   "Processing quota exceeded", "Authentication token expired",
   "Database connection lost", "File corruption detected"]

/-- `errorCodes` (`src/unnamed/part_003` lines 273-282). -/
def errorCodes : List String :=
  ["STORAGE_FULL", "NETWORK_TIMEOUT", "INVALID_FORMAT", "MEMORY_ERROR",
   "QUOTA_EXCEEDED", "AUTH_EXPIRED", "DB_CONNECTION_LOST", "FILE_CORRUPTED"]

def noCode : String := ""

/-- A secondary event as pushed by `src/unnamed/part_003` lines 285-297
(`job_failed`) and 303-315 (`data_downloaded`). -/
inductive SecondaryEvent
  | jobFailed (error_code error_message email : String) (timestamp : ℚ)
      (user_id projectId : String)
  | dataDownloaded (file_size : ℚ) (words : ℤ) (email : String) (timestamp : ℚ)
      (user_id projectId : String)
deriving DecidableEq

def SecondaryEvent.tsOf : SecondaryEvent → ℚ
  | .jobFailed _ _ _ t _ _ => t
  | .dataDownloaded _ _ _ t _ _ => t

def SecondaryEvent.emailOf : SecondaryEvent → String
  | .jobFailed _ _ e _ _ _ => e
  | .dataDownloaded _ _ e _ _ _ => e

def SecondaryEvent.userIdOf : SecondaryEvent → String
  | .jobFailed _ _ _ _ u _ => u
  | .dataDownloaded _ _ _ _ u _ => u

def SecondaryEvent.projectIdOf : SecondaryEvent → String
  | .jobFailed _ _ _ _ _ p => p
  | .dataDownloaded _ _ _ _ _ p => p

def SecondaryEvent.isFailed : SecondaryEvent → Bool
  | .jobFailed _ _ _ _ _ _ => true
  | .dataDownloaded _ _ _ _ _ _ => false

/-- The secondary-event generation for one primary event
(`src/unnamed/part_003` lines 255-317): with the `Math.random()` draw
`rFail < 0.03` a `job_failed` event is pushed (error picked by
`Math.floor(rErr * errorMessages.length)`, timestamp within 1 hour of the
primary via the draw `rOffF`) and `jobSuccessful` becomes false, suppressing
the download; otherwise exactly one `data_downloaded` event is pushed
(timestamp within 24 hours via `rOffD`), copying the primary's file size,
word count, user and projectId. -/
def emitSecondary (primary : DataEvent) (rFail rErr rOffF rOffD : ℚ) :
    List SecondaryEvent :=
  if rFail < 3 / 100 then
    let errorIndex := (⌊rErr * (errorMessages.length : ℚ)⌋).toNat
    [SecondaryEvent.jobFailed (errorCodes.getD errorIndex noCode)
      (errorMessages.getD errorIndex noCode) primary.email
      (primary.timestamp + rOffF * 3600000) primary.user_id primary.projectId]
  else
    [SecondaryEvent.dataDownloaded primary.file_size primary.words primary.email
      (primary.timestamp + rOffD * 86400000) primary.user_id primary.projectId]

end DataGen

/-! ## Definitions: `chunkArray` (`src/src/user.ts` lines 749-755,
`src/unnamed/part_000` lines 377-383) -/

namespace Chunk

/-- `chunkArray(array, chunkSize)`: `for (let i = 0; i < array.length;
i += chunkSize) chunks.push(array.slice(i, i + chunkSize))`.  For
`chunkSize = 0` the source loop never terminates; that case is mapped to
`[]` here and is outside every claim (which require a positive chunk
size). -/
def chunkArray {α : Type} : List α → ℕ → List (List α)
  | _, 0 => []
  | [], _ + 1 => []
  | a :: tl, k + 1 =>
    (a :: tl).take (k + 1) :: chunkArray ((a :: tl).drop (k + 1)) (k + 1)
termination_by l _ => l.length
decreasing_by
  simp [List.length_drop]
  omega

end Chunk

end SyncoraBot

/-! ## Theorems -/

namespace SyncoraBot

/-! ### `chunkArray` (claim C10) -/

namespace Chunk

theorem chunkArray_nil {α : Type} (k : ℕ) : chunkArray ([] : List α) k = [] := by
  cases k with
  | zero => rw [chunkArray]
  | succ k => rw [chunkArray]

theorem chunkArray_cons {α : Type} (a : α) (tl : List α) (k : ℕ) :
    chunkArray (a :: tl) (k + 1) =
      (a :: tl).take (k + 1) :: chunkArray ((a :: tl).drop (k + 1)) (k + 1) := by
  rw [chunkArray]

theorem chunkArray_eq_nil_iff {α : Type} (l : List α) (k : ℕ) (hk : 0 < k) :
    chunkArray l k = [] ↔ l = [] := by
  cases l with
  | nil => simp [chunkArray_nil]
  | cons a tl =>
    cases k with
    | zero => exact absurd hk (lt_irrefl 0)
    | succ k => simp [chunkArray_cons]

theorem chunkArray_flatten {α : Type} (k : ℕ) (hk : 0 < k) :
    ∀ (n : ℕ) (l : List α), l.length ≤ n → (chunkArray l k).flatten = l := by
  intro n
  induction n with
  | zero =>
    intro l hl
    have hl0 : l = [] := by
      cases l with
      | nil => rfl
      | cons a tl => simp at hl
    subst hl0
    simp [chunkArray_nil]
  | succ n ih =>
    intro l hl
    cases l with
    | nil => simp [chunkArray_nil]
    | cons a tl =>
      cases k with
      | zero => exact absurd hk (lt_irrefl 0)
      | succ k =>
        have hrec : ((a :: tl).drop (k + 1)).length ≤ n := by
          simp only [List.length_cons] at hl
          simp only [List.length_drop, List.length_cons]
          omega
        rw [chunkArray_cons]
        simp only [List.flatten_cons]
        rw [ih ((a :: tl).drop (k + 1)) hrec]
        exact List.take_append_drop _ _

theorem chunkArray_ne_nil {α : Type} (k : ℕ) (hk : 0 < k) :
    ∀ (n : ℕ) (l : List α), l.length ≤ n → ∀ c ∈ chunkArray l k, c ≠ [] := by
  intro n
  induction n with
  | zero =>
    intro l hl c hc
    have hl0 : l = [] := by
      cases l with
      | nil => rfl
      | cons a tl => simp at hl
    subst hl0
    simp [chunkArray_nil] at hc
  | succ n ih =>
    intro l hl c hc
    cases l with
    | nil => simp [chunkArray_nil] at hc
    | cons a tl =>
      cases k with
      | zero => exact absurd hk (lt_irrefl 0)
      | succ k =>
        rw [chunkArray_cons] at hc
        rcases List.mem_cons.mp hc with h | h
        · subst h
          simp
        · have hrec : ((a :: tl).drop (k + 1)).length ≤ n := by
            simp only [List.length_cons] at hl
            simp only [List.length_drop, List.length_cons]
            omega
          exact ih ((a :: tl).drop (k + 1)) hrec c h

theorem chunkArray_getD_length {α : Type} (k : ℕ) (hk : 0 < k) :
    ∀ (n : ℕ) (l : List α), l.length ≤ n → ∀ i, i + 1 < (chunkArray l k).length →
      ((chunkArray l k).getD i []).length = k := by
  intro n
  induction n with
  | zero =>
    intro l hl i hi
    have hl0 : l = [] := by
      cases l with
      | nil => rfl
      | cons a tl => simp at hl
    subst hl0
    simp [chunkArray_nil] at hi
  | succ n ih =>
    intro l hl i hi
    cases l with
    | nil => simp [chunkArray_nil] at hi
    | cons a tl =>
      cases k with
      | zero => exact absurd hk (lt_irrefl 0)
      | succ k =>
        have hrec : ((a :: tl).drop (k + 1)).length ≤ n := by
          simp only [List.length_cons] at hl
          simp only [List.length_drop, List.length_cons]
          omega
        rw [chunkArray_cons] at hi ⊢
        cases i with
        | zero =>
          simp only [List.getD_cons_zero]
          have hrest : chunkArray ((a :: tl).drop (k + 1)) (k + 1) ≠ [] := by
            intro hcon
            rw [hcon] at hi
            simp at hi
          have hdrop : (a :: tl).drop (k + 1) ≠ [] := by
            intro hcon
            exact hrest ((chunkArray_eq_nil_iff _ _ hk).mpr hcon)
          have hlen : k + 1 ≤ (a :: tl).length := by
            by_contra hcon
            push_neg at hcon
            exact hdrop (List.drop_eq_nil_of_le (le_of_lt hcon))
          simp only [List.length_cons] at hlen
          simp only [List.length_take, List.length_cons]
          omega
        | succ i =>
          simp only [List.getD_cons_succ]
          exact ih ((a :: tl).drop (k + 1)) hrec i (by simpa using hi)

/-- Claim C10: for every list and every positive chunk size, `chunkArray`
partitions the list: concatenating the chunks in order reproduces the list,
every chunk is non-empty, and every chunk except possibly the last has
length equal to the chunk size. -/
theorem chunkArray_spec {α : Type} (l : List α) (k : ℕ) (hk : 0 < k) :
    (chunkArray l k).flatten = l ∧
    (∀ c ∈ chunkArray l k, c ≠ []) ∧
    (∀ i, i + 1 < (chunkArray l k).length → ((chunkArray l k).getD i []).length = k) :=
  ⟨chunkArray_flatten k hk l.length l le_rfl,
   chunkArray_ne_nil k hk l.length l le_rfl,
   chunkArray_getD_length k hk l.length l le_rfl⟩

/-- Witness for C10 at the concrete list `[1, 2, 3]` with chunk size 2. -/
theorem chunkArray_spec_witness :
    (chunkArray [1, 2, 3] 2).flatten = [1, 2, 3] ∧
    (∀ c ∈ chunkArray [1, 2, 3] 2, c ≠ []) ∧
    (∀ i, i + 1 < (chunkArray [1, 2, 3] 2).length →
      ((chunkArray [1, 2, 3] 2).getD i []).length = 2) :=
  chunkArray_spec [1, 2, 3] 2 (by decide)

end Chunk

end SyncoraBot

namespace SyncoraBot

/-! ### Phase-2 reconciliation and secondary events (claims C1, C8, C9) -/

namespace DataGen

theorem phase2Frame_refl (a : DataEvent) : phase2Frame a a :=
  ⟨rfl, rfl, rfl, rfl, Or.inl rfl⟩

theorem boostLoop_frame (targetIdeal : ℚ) (draw : ℕ → ℚ) :
    ∀ (l : List DataEvent) (i : ℕ) (total : ℚ),
      List.Forall₂ phase2Frame l (boostLoop targetIdeal draw l i total) := by
  intro l
  induction l with
  | nil =>
    intro i total
    rw [boostLoop]
    exact List.Forall₂.nil
  | cons e rest ih =>
    intro i total
    rw [boostLoop]
    split_ifs with h
    · exact List.Forall₂.cons ⟨rfl, rfl, rfl, rfl, Or.inr rfl⟩
        (List.forall₂_same.mpr fun a _ => phase2Frame_refl a)
    · exact List.Forall₂.cons ⟨rfl, rfl, rfl, rfl, Or.inr rfl⟩ (ih (i + 1) _)

theorem scaleLoop_frame (scaleFactor : ℚ) (l : List DataEvent) :
    List.Forall₂ phase2Frame l (scaleLoop scaleFactor l) := by
  induction l with
  | nil => exact List.Forall₂.nil
  | cons e rest ih =>
    exact List.Forall₂.cons ⟨rfl, rfl, rfl, rfl, Or.inr rfl⟩ ih

/-- Claim C9: the Phase 2 correction only changes magnitude fields (the
word count being recomputed from the new file size on any changed event);
timestamp, email, user id and projectId of every event are unchanged
pointwise, and the event list keeps the same length (no events are added or
removed). -/
theorem phase2_frame_preserved (targetFileSizeMB rIdeal : ℚ) (draw : ℕ → ℚ)
    (monthEvents : List DataEvent) :
    List.Forall₂ phase2Frame monthEvents
      (phase2Adjust targetFileSizeMB rIdeal draw monthEvents) ∧
    (phase2Adjust targetFileSizeMB rIdeal draw monthEvents).length =
      monthEvents.length := by
  have hmain : List.Forall₂ phase2Frame monthEvents
      (phase2Adjust targetFileSizeMB rIdeal draw monthEvents) := by
    simp only [phase2Adjust]
    split_ifs with h1 h2 h3
    · exact boostLoop_frame _ _ _ _ _
    · exact List.forall₂_same.mpr fun a _ => phase2Frame_refl a
    · exact scaleLoop_frame _ _
    · exact List.forall₂_same.mpr fun a _ => phase2Frame_refl a
  exact ⟨hmain, hmain.length_eq.symm⟩

/-- Counterexample to claim C1 as stated: a Phase-1 output at 10% of target
(one 10 MB event against a 100 MB target), with admissible random draws
(`rIdeal = 1.1 ∈ [1.1, 1.15]`; the boost draw 80 lies in
`[0.8, 1.5] × extraFileSizePerEvent` where
`extraFileSizePerEvent = (targetIdeal - totalGenerated) / 1 = 100`), ends
Phase 2 with a total of 90 MB — strictly below 100% of the target, outside
the claimed band `[target, target * 1.2]`. -/
theorem phase2_below_target_cex :
    ((11 : ℚ) / 10 ≥ 11 / 10 ∧ (11 : ℚ) / 10 ≤ 23 / 20) ∧
    ((8 / 10 : ℚ) * 100 ≤ 80 ∧ (80 : ℚ) ≤ (15 / 10) * 100) ∧
    100 * ((11 : ℚ) / 10) - sumFileSize [cexEvent] = 100 ∧
    sumFileSize [cexEvent] = (10 / 100) * 100 ∧
    sumFileSize (phase2Adjust 100 (11 / 10) (fun _ => 80) [cexEvent]) = 90 ∧
    ¬(100 ≤ sumFileSize (phase2Adjust 100 (11 / 10) (fun _ => 80) [cexEvent])) := by
  have hsum : sumFileSize [cexEvent] = 10 := by
    norm_num [sumFileSize, cexEvent]
  have hrun : sumFileSize (phase2Adjust 100 (11 / 10) (fun _ => 80) [cexEvent]) = 90 := by
    norm_num [phase2Adjust, boostLoop, sumFileSize, cexEvent]
  refine ⟨⟨by norm_num, by norm_num⟩, ⟨by norm_num, by norm_num⟩,
    ?_, ?_, hrun, ?_⟩
  · rw [hsum]
    norm_num
  · rw [hsum]
    norm_num
  · rw [hrun]
    norm_num

/-- Claim C1, amended: whenever the Phase-1 sum already lies in
`[target, target * 1.2]`, Phase 2 makes no change and the post-correction
sum lies in the band; for Phase-1 sums below target the boost branch does
not guarantee the band (see the counterexample). -/
theorem phase2_in_band_of_raw_in_band (targetFileSizeMB rIdeal : ℚ) (draw : ℕ → ℚ)
    (monthEvents : List DataEvent)
    (h1 : targetFileSizeMB ≤ sumFileSize monthEvents)
    (h2 : sumFileSize monthEvents ≤ targetFileSizeMB * (6 / 5)) :
    phase2Adjust targetFileSizeMB rIdeal draw monthEvents = monthEvents ∧
    targetFileSizeMB ≤ sumFileSize (phase2Adjust targetFileSizeMB rIdeal draw monthEvents) ∧
    sumFileSize (phase2Adjust targetFileSizeMB rIdeal draw monthEvents) ≤
      targetFileSizeMB * (6 / 5) := by
  have heq : phase2Adjust targetFileSizeMB rIdeal draw monthEvents = monthEvents := by
    simp only [phase2Adjust]
    rw [if_neg (not_lt.mpr h1), if_neg (not_lt.mpr h2)]
  refine ⟨heq, ?_, ?_⟩
  · rw [heq]
    exact h1
  · rw [heq]
    exact h2

/-- Witness for the amended C1 at a concrete in-band input: one 11 MB event
against a 10 MB target. -/
theorem phase2_in_band_of_raw_in_band_witness :
    phase2Adjust 10 (11 / 10) (fun _ => 0) [bandEvent] = [bandEvent] ∧
    (10 : ℚ) ≤ sumFileSize (phase2Adjust 10 (11 / 10) (fun _ => 0) [bandEvent]) ∧
    sumFileSize (phase2Adjust 10 (11 / 10) (fun _ => 0) [bandEvent]) ≤ 10 * (6 / 5) :=
  phase2_in_band_of_raw_in_band 10 (11 / 10) (fun _ => 0) [bandEvent]
    (by norm_num [sumFileSize, bandEvent]) (by norm_num [sumFileSize, bandEvent])

/-- Claim C8: each primary `data_generated` event produces exactly one
secondary event — a `job_failed` event (within 1 hour) exactly when the
failure draw is below 3%, in which case no download is produced, and a
`data_downloaded` event (within 24 hours) otherwise — and the secondary
event carries the primary's email, user id and projectId. -/
theorem secondary_event_spec (primary : DataEvent) (rFail rErr rOffF rOffD : ℚ)
    (hf0 : 0 ≤ rOffF) (hf1 : rOffF < 1) (hd0 : 0 ≤ rOffD) (hd1 : rOffD < 1) :
    (emitSecondary primary rFail rErr rOffF rOffD).length = 1 ∧
    ∀ s ∈ emitSecondary primary rFail rErr rOffF rOffD,
      s.emailOf = primary.email ∧ s.userIdOf = primary.user_id ∧
      s.projectIdOf = primary.projectId ∧ primary.timestamp ≤ s.tsOf ∧
      (s.isFailed = true → rFail < 3 / 100 ∧ s.tsOf < primary.timestamp + 3600000) ∧
      (s.isFailed = false → 3 / 100 ≤ rFail ∧ s.tsOf < primary.timestamp + 86400000) := by
  unfold emitSecondary
  split_ifs with h
  · refine ⟨rfl, ?_⟩
    intro s hs
    rw [List.mem_singleton] at hs
    subst hs
    refine ⟨rfl, rfl, rfl, ?_, ?_, ?_⟩
    · have hmul : 0 ≤ rOffF * 3600000 := mul_nonneg hf0 (by norm_num)
      simp only [SecondaryEvent.tsOf]
      linarith
    · intro _
      refine ⟨h, ?_⟩
      have hmul : rOffF * 3600000 < 1 * 3600000 :=
        mul_lt_mul_of_pos_right hf1 (by norm_num)
      simp only [SecondaryEvent.tsOf]
      linarith
    · intro hcon
      simp [SecondaryEvent.isFailed] at hcon
  · refine ⟨rfl, ?_⟩
    intro s hs
    rw [List.mem_singleton] at hs
    subst hs
    refine ⟨rfl, rfl, rfl, ?_, ?_, ?_⟩
    · have hmul : 0 ≤ rOffD * 86400000 := mul_nonneg hd0 (by norm_num)
      simp only [SecondaryEvent.tsOf]
      linarith
    · intro hcon
      simp [SecondaryEvent.isFailed] at hcon
    · intro _
      refine ⟨le_of_not_lt h, ?_⟩
      have hmul : rOffD * 86400000 < 1 * 86400000 :=
        mul_lt_mul_of_pos_right hd1 (by norm_num)
      simp only [SecondaryEvent.tsOf]
      linarith

/-- Witness for C8: concrete primary event, failure branch (`rFail = 0`). -/
theorem secondary_event_spec_witness :
    (emitSecondary cexEvent 0 0 0 0).length = 1 ∧
    ∀ s ∈ emitSecondary cexEvent 0 0 0 0,
      s.emailOf = cexEvent.email ∧ s.userIdOf = cexEvent.user_id ∧
      s.projectIdOf = cexEvent.projectId ∧ cexEvent.timestamp ≤ s.tsOf ∧
      (s.isFailed = true → (0 : ℚ) < 3 / 100 ∧ s.tsOf < cexEvent.timestamp + 3600000) ∧
      (s.isFailed = false → (3 : ℚ) / 100 ≤ 0 ∧ s.tsOf < cexEvent.timestamp + 86400000) :=
  secondary_event_spec cexEvent 0 0 0 0 le_rfl (by norm_num) le_rfl (by norm_num)

end DataGen

/-! ### Geo deduplication cache (claims C4, C5) -/

namespace Geo

theorem uniqueLatLon_bounded (baseLat baseLon : ℚ) :
    ∀ (fuel : ℕ) (jitter : ℕ → ℚ × ℚ) (g : GeoUsage) (p : GeoKey) (g' : GeoUsage),
      CacheBounded g → uniqueLatLon baseLat baseLon jitter g fuel = some (p, g') →
      CacheBounded g' := by
  intro fuel
  induction fuel with
  | zero =>
    intro jitter g p g' hg h
    rw [uniqueLatLon] at h
    exact absurd h (by simp)
  | succ n ih =>
    intro jitter g p g' hg h
    rw [uniqueLatLon] at h
    split_ifs at h with hc
    · rw [Option.some.injEq, Prod.mk.injEq] at h
      obtain ⟨-, hgeq⟩ := h
      subst hgeq
      intro k
      simp only [setCount, getCount]
      split_ifs with hk
      · omega
      · exact hg k
    · exact ih _ _ _ _ hg h

theorem assignAll_bounded (fuel : ℕ) :
    ∀ (entries : List ((ℚ × ℚ) × (ℕ → ℚ × ℚ))) (g : GeoUsage) (ps : List GeoKey)
      (gf : GeoUsage), CacheBounded g → assignAll fuel entries g = some (ps, gf) →
      CacheBounded gf := by
  intro entries
  induction entries with
  | nil =>
    intro g ps gf hg h
    rw [assignAll] at h
    rw [Option.some.injEq, Prod.mk.injEq] at h
    obtain ⟨-, hgeq⟩ := h
    subst hgeq
    exact hg
  | cons e rest ih =>
    intro g ps gf hg h
    rw [assignAll] at h
    split at h
    · exact absurd h (by simp)
    · rename_i p g' hu
      split at h
      · exact absurd h (by simp)
      · rename_i ps' gf' ha
        rw [Option.some.injEq, Prod.mk.injEq] at h
        obtain ⟨-, hgeq⟩ := h
        subst hgeq
        exact ih g' ps' gf' (uniqueLatLon_bounded e.1.1 e.1.2 fuel e.2 g p g' hg hu) ha

/-- Claim C4: across any run of geo assignments started from a bounded
usage cache (in particular the empty process-lifetime cache), the usage
cache stays bounded by 3 on every rounded pair at all times — stated for
every run length `n` via `entries.take n`, so every intermediate cache of
the full run is covered. -/
theorem geo_cap_le_three (fuel n : ℕ) (entries : List ((ℚ × ℚ) × (ℕ → ℚ × ℚ)))
    (g : GeoUsage) (ps : List GeoKey) (gf : GeoUsage) (hg : CacheBounded g)
    (h : assignAll fuel (entries.take n) g = some (ps, gf)) : CacheBounded gf :=
  assignAll_bounded fuel (entries.take n) g ps gf hg h

/-- Witness for C4: one assignment at base `(0, 0)` with zero jitter from
the empty cache yields a cache with the assigned pair at count 1, which is
bounded. -/
theorem geo_cap_le_three_witness :
    CacheBounded [((round3 (0 + (0 : ℚ)), round3 (0 + (0 : ℚ))), 1)] :=
  geo_cap_le_three 1 1 [(((0 : ℚ), (0 : ℚ)), fun _ => (0, 0))] []
    [(round3 (0 + (0 : ℚ)), round3 (0 + (0 : ℚ)))]
    [((round3 (0 + (0 : ℚ)), round3 (0 + (0 : ℚ))), 1)]
    (fun k => by simp [getCount]) (by rfl)

/-- Claim C5 (the code at the failing input): with every rounded pair the
jitter can reach already at its cap (cache `[((0, 0), 3)]`, zero jitter from
base `(0, 0)`), `uniqueLatLon` never returns, for any number of loop
iterations — the source's `while (true)` has no retry bound and no
exhaustion-error exit. -/
theorem uniqueLatLon_saturated_loops :
    ∀ fuel, uniqueLatLon 0 0 (fun _ => (0, 0)) [(((0 : ℚ), (0 : ℚ)), 3)] fuel = none := by
  intro fuel
  induction fuel with
  | zero => rw [uniqueLatLon]
  | succ n ih =>
    rw [uniqueLatLon]
    simp only []
    rw [if_neg]
    · exact ih
    · norm_num [getCount, round3]

end Geo

end SyncoraBot

namespace SyncoraBot

/-! ### User generation (claims C2, C3, C7) -/

namespace GenUsers

theorem pickRegion_total (q : Quota) (r : ℚ) :
    quotaTotal (pickRegion q r).2 = quotaTotal q - 1 := by
  rw [pickRegion]
  split_ifs <;> simp [quotaTotal] <;> ring

theorem pickRegion_nonneg (q : Quota) (r : ℚ) (hq : quotaNonneg q) (h0 : 0 ≤ r)
    (h1 : r < 1) (hpos : 0 < quotaTotal q) : quotaNonneg (pickRegion q r).2 := by
  obtain ⟨hIN, hUS, hEU⟩ := hq
  have hINq : (0 : ℚ) ≤ (q.IN : ℚ) := by exact_mod_cast hIN
  have hUSq : (0 : ℚ) ≤ (q.US : ℚ) := by exact_mod_cast hUS
  have hEUq : (0 : ℚ) ≤ (q.EU : ℚ) := by exact_mod_cast hEU
  have hT : (0 : ℚ) < (q.IN : ℚ) + (q.US : ℚ) + (q.EU : ℚ) := by
    have h := hpos
    unfold quotaTotal at h
    exact_mod_cast h
  have hroll0 : 0 ≤ r * ((q.IN : ℚ) + (q.US : ℚ) + (q.EU : ℚ)) :=
    mul_nonneg h0 (le_of_lt hT)
  have hrollT : r * ((q.IN : ℚ) + (q.US : ℚ) + (q.EU : ℚ)) <
      (q.IN : ℚ) + (q.US : ℚ) + (q.EU : ℚ) := mul_lt_of_lt_one_left hT h1
  rw [pickRegion]
  split_ifs with hA hB
  · have hq1 : (0 : ℚ) < (q.IN : ℚ) := lt_of_le_of_lt hroll0 hA
    have hq2 : 0 < q.IN := by exact_mod_cast hq1
    show 0 ≤ q.IN - 1 ∧ 0 ≤ q.US ∧ 0 ≤ q.EU
    exact ⟨by omega, hUS, hEU⟩
  · have hge : (q.IN : ℚ) ≤ r * ((q.IN : ℚ) + (q.US : ℚ) + (q.EU : ℚ)) := not_lt.mp hA
    have hq1 : (0 : ℚ) < (q.US : ℚ) := by linarith [lt_of_le_of_lt hge hB]
    have hq2 : 0 < q.US := by exact_mod_cast hq1
    show 0 ≤ q.IN ∧ 0 ≤ q.US - 1 ∧ 0 ≤ q.EU
    exact ⟨hIN, by omega, hEU⟩
  · have hge : (q.IN : ℚ) + (q.US : ℚ) ≤ r * ((q.IN : ℚ) + (q.US : ℚ) + (q.EU : ℚ)) :=
      not_lt.mp hB
    have hq1 : (0 : ℚ) < (q.EU : ℚ) := by linarith [lt_of_le_of_lt hge hrollT]
    have hq2 : 0 < q.EU := by exact_mod_cast hq1
    show 0 ≤ q.IN ∧ 0 ≤ q.US ∧ 0 ≤ q.EU - 1
    exact ⟨hIN, hUS, by omega⟩

/-- Claim C3: the signup loop emits exactly one signup event (and entity)
per iteration, so a period generates exactly its `signups` count; the quota
sampler decrements exactly one bucket per pick (total decreases by exactly
the number of picks), keeps every quota non-negative throughout, and when
the number of picks equals the initial quota total the quotas are exactly
exhausted (all zero). -/
theorem signup_count_exact (monthStart monthEnd : ℚ) (ids : ℕ → String) (rd rp : ℕ → ℚ)
    (i n : ℕ) (q : Quota) (hq : quotaNonneg q) (hr : ∀ j, 0 ≤ rp j ∧ rp j < 1)
    (hn : (n : ℤ) ≤ quotaTotal q) :
    (generateSignups monthStart monthEnd ids rd rp i n q).1.length = n ∧
    quotaNonneg (generateSignups monthStart monthEnd ids rd rp i n q).2 ∧
    quotaTotal (generateSignups monthStart monthEnd ids rd rp i n q).2 =
      quotaTotal q - n ∧
    ((n : ℤ) = quotaTotal q →
      (generateSignups monthStart monthEnd ids rd rp i n q).2 = ⟨0, 0, 0⟩) := by
  induction n generalizing i q with
  | zero =>
    rw [generateSignups]
    refine ⟨rfl, hq, by simp, ?_⟩
    intro h0
    obtain ⟨hIN, hUS, hEU⟩ := hq
    have h0' : q.IN + q.US + q.EU = 0 := by
      have := h0
      unfold quotaTotal at this
      omega
    obtain ⟨qIN, qUS, qEU⟩ := q
    simp only at hIN hUS hEU h0'
    simp only [Quota.mk.injEq]
    omega
  | succ n ih =>
    have hpos : 0 < quotaTotal q := by
      have h := hn
      push_cast at h
      omega
    have hq' := pickRegion_nonneg q (rp i) hq (hr i).1 (hr i).2 hpos
    have ht' := pickRegion_total q (rp i)
    have hn' : (n : ℤ) ≤ quotaTotal (pickRegion q (rp i)).2 := by
      rw [ht']
      push_cast at hn
      omega
    obtain ⟨ihlen, ihnn, ihtot, ihzero⟩ := ih (i + 1) (pickRegion q (rp i)).2 hq' hn'
    rw [generateSignups]
    refine ⟨?_, ihnn, ?_, ?_⟩
    · simp [ihlen]
    · rw [ihtot, ht']
      push_cast
      ring
    · intro heq
      apply ihzero
      rw [ht']
      push_cast at heq ⊢
      omega

/-- Witness for C3: quotas `(2, 1, 1)` (total 4) with 4 picks, all random
draws 0: exactly 4 signup events, quotas exactly exhausted. -/
theorem signup_count_exact_witness :
    (generateSignups 0 100 (fun _ => "") (fun _ => 0) (fun _ => 0) 0 4 ⟨2, 1, 1⟩).1.length = 4 ∧
    quotaNonneg (generateSignups 0 100 (fun _ => "") (fun _ => 0) (fun _ => 0) 0 4 ⟨2, 1, 1⟩).2 ∧
    quotaTotal (generateSignups 0 100 (fun _ => "") (fun _ => 0) (fun _ => 0) 0 4 ⟨2, 1, 1⟩).2 =
      quotaTotal ⟨2, 1, 1⟩ - 4 ∧
    ((4 : ℤ) = quotaTotal ⟨2, 1, 1⟩ →
      (generateSignups 0 100 (fun _ => "") (fun _ => 0) (fun _ => 0) 0 4 ⟨2, 1, 1⟩).2 = ⟨0, 0, 0⟩) :=
  signup_count_exact 0 100 (fun _ => "") (fun _ => 0) (fun _ => 0) 0 4 ⟨2, 1, 1⟩
    ⟨by norm_num, by norm_num, by norm_num⟩ (fun j => ⟨le_rfl, by norm_num⟩)
    (by norm_num [quotaTotal])

/-- Claim C2, amended: a daily active event's timestamp (drawn in
`[day, day + 12h)`) is at or after the signup of every user eligible that
day, and a monthly-active top-up event's timestamp (drawn in
`[monthStart, monthEnd)`) is at or after the signup of a user who signed up
no later than the period start; for users signing up inside the period the
top-up timestamp can precede the signup (see the counterexample). -/
theorem active_ts_ge_signup (allUsers : List UserR) (day monthStart monthEnd r : ℚ)
    (u : UserR) (h0 : 0 ≤ r) (hse : monthStart ≤ monthEnd) :
    (u ∈ eligibleOnDay allUsers day → u.signUpDate ≤ dailyActiveTs day r) ∧
    (u.signUpDate ≤ monthStart → u.signUpDate ≤ mauTopUpTs monthStart monthEnd r) := by
  constructor
  · intro hu
    have hmem := List.mem_filter.mp hu
    have hle : u.signUpDate ≤ day := by
      have h := hmem.2
      simpa using h
    have hnn : 0 ≤ r * (day + 12 * 60 * 60 * 1000 - day) := by
      apply mul_nonneg h0
      ring_nf
      norm_num
    unfold dailyActiveTs randDate
    linarith
  · intro hu
    have hnn : 0 ≤ r * (monthEnd - monthStart) := mul_nonneg h0 (by linarith)
    unfold mauTopUpTs randDate
    linarith

/-- Witness for the amended C2 at concrete inputs. -/
theorem active_ts_ge_signup_witness :
    (cexUser ∈ eligibleOnDay [cexUser] 60 → cexUser.signUpDate ≤ dailyActiveTs 60 0) ∧
    (cexUser.signUpDate ≤ 50 → cexUser.signUpDate ≤ mauTopUpTs 50 100 0) :=
  active_ts_ge_signup [cexUser] 60 50 100 0 cexUser le_rfl (by norm_num)

/-- Counterexample to claim C2 as stated: in the period `[0, 100]`, the user
`cexUser` (signed up at time 50, eligible since `50 ≤ 100`, not yet active)
receives a monthly-active top-up event with timestamp 0 (draw 0 over the
whole period window) — strictly before the user's signup. -/
theorem mau_topup_before_signup_cex :
    mauTopUp [cexUser] [] 1 0 100 (fun l n => l.take n) (fun _ => 0) =
      [{ distinct_id := "u1", event := "user-active",
         timestamp := mauTopUpTs 0 100 0 }] ∧
    mauTopUpTs 0 100 0 = 0 ∧
    cexUser.id = "u1" ∧ cexUser.signUpDate ≤ 100 ∧
    (0 : ℚ) < cexUser.signUpDate := by
  refine ⟨by rfl, by norm_num [mauTopUpTs, randDate], rfl,
    by norm_num [cexUser], by norm_num [cexUser]⟩

theorem fakerInt_bounds (lo hi : ℕ) (r : ℚ) (h0 : 0 ≤ r) (h1 : r < 1)
    (hlohi : lo ≤ hi) : lo ≤ fakerInt lo hi r ∧ fakerInt lo hi r ≤ hi := by
  constructor
  · exact Nat.le_add_right lo _
  · unfold fakerInt
    have hd : (0 : ℚ) < (hi : ℚ) + 1 - (lo : ℚ) := by
      have hc : (lo : ℚ) ≤ (hi : ℚ) := by exact_mod_cast hlohi
      linarith
    have hlt : r * ((hi : ℚ) + 1 - (lo : ℚ)) < (hi : ℚ) + 1 - (lo : ℚ) :=
      mul_lt_of_lt_one_left hd h1
    have hfl : ⌊r * ((hi : ℚ) + 1 - (lo : ℚ))⌋ < (hi : ℤ) + 1 - (lo : ℤ) := by
      rw [Int.floor_lt]
      push_cast
      linarith
    omega

theorem getDailyUserCount_bounds (target : ℕ) (r : ℚ) (h0 : 0 ≤ r) (h1 : r < 1) :
    (⌊(target : ℚ) * (6 / 10)⌋).toNat ≤ getDailyUserCount target r ∧
    getDailyUserCount target r ≤ target := by
  have hlo : (⌊(target : ℚ) * (6 / 10)⌋).toNat ≤ target := by
    have h06 : (target : ℚ) * (6 / 10) ≤ (target : ℚ) := by
      have ht : (0 : ℚ) ≤ (target : ℚ) := by positivity
      linarith
    have hf : ⌊(target : ℚ) * (6 / 10)⌋ ≤ (target : ℤ) := by
      calc ⌊(target : ℚ) * (6 / 10)⌋ ≤ ⌊(target : ℚ)⌋ := Int.floor_le_floor h06
        _ = (target : ℤ) := Int.floor_natCast target
    omega
  exact fakerInt_bounds _ _ _ h0 h1 hlo

/-- Claim C7, amended: the drawn count `getDailyUserCount` always lies in
`[⌊target * 0.6⌋, target]`; the count of active events actually emitted on a
day is `min(draw, eligible.length)`, which never exceeds the target nor the
eligible pool, but can fall below the lower band bound when the eligible
pool is smaller than `⌊target * 0.6⌋` (see the counterexample). -/
theorem daily_active_count_bounds (allUsers : List UserR) (day : ℚ) (dau : ℕ)
    (r : ℚ) (h0 : 0 ≤ r) (h1 : r < 1) :
    ((⌊(dau : ℚ) * (6 / 10)⌋).toNat ≤ getDailyUserCount dau r ∧
      getDailyUserCount dau r ≤ dau) ∧
    dailyActiveCount allUsers day dau r ≤ dau ∧
    dailyActiveCount allUsers day dau r ≤ (eligibleOnDay allUsers day).length := by
  have hb := getDailyUserCount_bounds dau r h0 h1
  exact ⟨hb, le_trans (Nat.min_le_left _ _) hb.2, Nat.min_le_right _ _⟩

/-- Witness for the amended C7 at concrete inputs. -/
theorem daily_active_count_bounds_witness :
    ((⌊(10 : ℚ) * (6 / 10)⌋).toNat ≤ getDailyUserCount 10 0 ∧
      getDailyUserCount 10 0 ≤ 10) ∧
    dailyActiveCount [cexUser] 100 10 0 ≤ 10 ∧
    dailyActiveCount [cexUser] 100 10 0 ≤ (eligibleOnDay [cexUser] 100).length :=
  daily_active_count_bounds [cexUser] 100 10 0 le_rfl (by norm_num)

/-- Counterexample to claim C7 as stated: with daily target 2 (band lower
bound `⌊2 * 0.6⌋ = 1`) and an empty eligible pool, the count actually used
is `min(draw, 0) = 0`, strictly below the claimed lower bound. -/
theorem daily_active_count_cex :
    getDailyUserCount 2 0 = 1 ∧
    dailyActiveCount [] 0 2 0 = 0 ∧
    ¬((⌊(2 : ℚ) * (6 / 10)⌋).toNat ≤ dailyActiveCount [] 0 2 0) := by
  have h1 : getDailyUserCount 2 0 = 1 := by
    norm_num [getDailyUserCount, fakerInt]
  have h2 : dailyActiveCount [] 0 2 0 = 0 := by
    simp [dailyActiveCount, eligibleOnDay]
  refine ⟨h1, h2, ?_⟩
  rw [h2]
  norm_num

end GenUsers

end SyncoraBot

namespace SyncoraBot

/-! ### Ticket lifecycle (claim C6): helper lemmas -/

namespace Tickets

theorem mem_resolveEventsFor (m : MonthInput) :
    ∀ (j : ℕ) (l : List RaisedTicket) (e : TEvent), e ∈ resolveEventsFor m j l →
      ∃ jj tk, tk ∈ l ∧
        e = { isRaise := false, ticketId := tk.id,
              timestamp := max tk.timestamp m.monthStart +
                m.resolveDraw jj * (m.monthEnd - max tk.timestamp m.monthStart),
              email := tk.email, username := tk.username } := by
  intro j l
  induction l generalizing j with
  | nil =>
    intro e he
    rw [resolveEventsFor] at he
    exact absurd he (List.not_mem_nil e)
  | cons tk rest ih =>
    intro e he
    rw [resolveEventsFor] at he
    rcases List.mem_cons.mp he with h | h
    · exact ⟨j, tk, List.mem_cons_self _ _, h⟩
    · obtain ⟨jj, tk', htk', heq⟩ := ih (j + 1) e h
      exact ⟨jj, tk', List.mem_cons_of_mem _ htk', heq⟩

theorem resolveEventsFor_not_raise (m : MonthInput) (j : ℕ) (l : List RaisedTicket) :
    ∀ e ∈ resolveEventsFor m j l, e.isRaise = false := by
  intro e he
  obtain ⟨jj, tk, -, heq⟩ := mem_resolveEventsFor m j l e he
  rw [heq]

theorem resolveEventsFor_map_ticketId (m : MonthInput) :
    ∀ (j : ℕ) (l : List RaisedTicket),
      (resolveEventsFor m j l).map (fun e => e.ticketId) = l.map (fun tk => tk.id) := by
  intro j l
  induction l generalizing j with
  | nil =>
    rw [resolveEventsFor]
    rfl
  | cons tk rest ih =>
    rw [resolveEventsFor]
    simp [ih (j + 1)]

theorem pair_sublist_append {a b : TEvent} {l₁ l₂ : List TEvent} (ha : a ∈ l₁)
    (hb : b ∈ l₂) : List.Sublist [a, b] (l₁ ++ l₂) := by
  have h1 : List.Sublist [a] l₁ := List.singleton_sublist.mpr ha
  have h2 : List.Sublist [b] l₂ := List.singleton_sublist.mpr hb
  exact h1.append h2

theorem sublist_orderedInsert (x : TEvent) :
    ∀ l : List TEvent, List.Sublist l
      (List.orderedInsert (fun a b => a.timestamp ≤ b.timestamp) x l) := by
  intro l
  induction l with
  | nil => simp [List.orderedInsert]
  | cons c l' ih =>
    rw [List.orderedInsert]
    split_ifs with h
    · exact List.Sublist.cons x (List.Sublist.refl _)
    · exact List.Sublist.cons₂ c ih

theorem pair_sublist_orderedInsert {a b : TEvent} (hts : a.timestamp ≤ b.timestamp) :
    ∀ l : List TEvent, b ∈ l →
      List.Sublist [a, b]
        (List.orderedInsert (fun x y => x.timestamp ≤ y.timestamp) a l) := by
  intro l
  induction l with
  | nil =>
    intro hb
    exact absurd hb (List.not_mem_nil b)
  | cons c l' ih =>
    intro hb
    rw [List.orderedInsert]
    split_ifs with h
    · exact List.Sublist.cons₂ a (List.singleton_sublist.mpr hb)
    · rcases List.mem_cons.mp hb with rfl | hb'
      · exact absurd hts h
      · exact List.Sublist.cons c (ih hb')

/-- Stability of the timestamp sort: an in-order pair whose first component
is no later than the second stays in order. -/
theorem pair_sublist_insertionSort {a b : TEvent} (hts : a.timestamp ≤ b.timestamp) :
    ∀ l : List TEvent, List.Sublist [a, b] l →
      List.Sublist [a, b]
        (List.insertionSort (fun x y => x.timestamp ≤ y.timestamp) l) := by
  intro l
  induction l with
  | nil =>
    intro h
    exact absurd (h.subset (by simp)) (List.not_mem_nil b)
  | cons x l' ih =>
    intro h
    rw [List.insertionSort]
    cases h with
    | cons y h' => exact (ih h').trans (sublist_orderedInsert x _)
    | cons₂ y h' =>
      have hbl : b ∈ l' := List.singleton_sublist.mp h'
      have hb : b ∈ List.insertionSort (fun x y => x.timestamp ≤ y.timestamp) l' :=
        (List.perm_insertionSort (fun x y => x.timestamp ≤ y.timestamp) l').mem_iff.mpr hbl
      exact pair_sublist_orderedInsert hts _ hb

theorem mem_take_of_pair_sublist :
    ∀ (L : List TEvent) (k : ℕ) (a b : TEvent), a ≠ b → L.count b ≤ 1 →
      List.Sublist [a, b] L → b ∈ L.take k → a ∈ L.take k := by
  intro L
  induction L with
  | nil =>
    intro k a b _ _ hs hb
    simp at hb
  | cons x L' ih =>
    intro k a b hne hcount hs hb
    cases k with
    | zero => simp at hb
    | succ k =>
      rw [List.take_succ_cons] at hb ⊢
      cases hs with
      | cons₂ y h' => exact List.mem_cons_self _ _
      | cons y h' =>
        have hbL' : b ∈ L' := h'.subset (by simp)
        rcases List.mem_cons.mp hb with rfl | hb'
        · rw [List.count_cons] at hcount
          have hpos : 0 < L'.count b := List.count_pos_iff.mpr hbL'
          simp at hcount
          omega
        · have hc' : L'.count b ≤ 1 := by
            rw [List.count_cons] at hcount
            split at hcount <;> omega
          exact List.mem_cons_of_mem x (ih k a b hne hc' h' hb')

theorem filter_key_length_one {α β : Type} [DecidableEq β] (f : α → β) :
    ∀ (l : List α) (b : β), (l.map f).Nodup → b ∈ l.map f →
      (l.filter (fun x => f x == b)).length = 1 := by
  intro l
  induction l with
  | nil =>
    intro b _ hb
    simp at hb
  | cons a l' ih =>
    intro b hnd hb
    rw [List.map_cons, List.nodup_cons] at hnd
    rw [List.map_cons] at hb
    rw [List.filter_cons]
    rcases List.mem_cons.mp hb with rfl | hb'
    · rw [if_pos (by simp)]
      have hnil : l'.filter (fun x => f x == f a) = [] := by
        rw [List.filter_eq_nil_iff]
        intro x hx hbeq
        have hfx : f x = f a := by simpa using hbeq
        exact hnd.1 (hfx ▸ List.mem_map_of_mem f hx)
      rw [hnil]
      rfl
    · rw [if_neg (by
        simp only [beq_eq_false_iff_ne, ne_eq, beq_iff_eq]
        intro heq
        exact hnd.1 (heq ▸ hb'))]
      exact ih b hnd.2 hb'

end Tickets

end SyncoraBot

namespace SyncoraBot

namespace Tickets

/-- In every initial segment of the timestamp-sorted event list, the number
of resolved events is at most the number of raised events, provided each
resolved event has a distinct-id raise at or before its own timestamp. -/
theorem sorted_take_resolved_le_raised (E : List TEvent) (k : ℕ)
    (hndres : ((E.filter fun x => !x.isRaise).map (fun e => e.ticketId)).Nodup)
    (hmatch : ∀ e ∈ E, e.isRaise = false → ∃ r, r ∈ E ∧ r.isRaise = true ∧
      r.ticketId = e.ticketId ∧ r.timestamp ≤ e.timestamp ∧ List.Sublist [r, e] E) :
    List.countP (fun x => !x.isRaise) ((sortByTs E).take k) ≤
      List.countP (fun x => x.isRaise) ((sortByTs E).take k) := by
  classical
  set L := sortByTs E with hL
  have hperm : List.Perm L E := List.perm_insertionSort _ E
  set P := L.take k with hP
  have hLf : List.Perm (L.filter fun x => !x.isRaise) (E.filter fun x => !x.isRaise) :=
    hperm.filter _
  have hndE : (E.filter fun x => !x.isRaise).Nodup := List.Nodup.of_map _ hndres
  have hndL : (L.filter fun x => !x.isRaise).Nodup := hLf.nodup_iff.mpr hndE
  have hndLmap : ((L.filter fun x => !x.isRaise).map (fun e => e.ticketId)).Nodup :=
    (hLf.map (fun e => e.ticketId)).nodup_iff.mpr hndres
  have hPsub : List.Sublist P L := List.take_sublist k L
  set s := P.filter (fun x => !x.isRaise) with hs
  set t := P.filter (fun x => x.isRaise) with ht
  have hsL : List.Sublist s (L.filter fun x => !x.isRaise) := hPsub.filter _
  have hs_nodup : s.Nodup := hndL.sublist hsL
  have hkey : ∀ e ∈ s, ∃ r, r ∈ t ∧ r.ticketId = e.ticketId := by
    intro e he
    have heP : e ∈ P := List.mem_of_mem_filter he
    have heres : e.isRaise = false := by
      have hb := List.of_mem_filter he
      simpa using hb
    have heE : e ∈ E := hperm.subset (hPsub.subset heP)
    obtain ⟨r, hrE, hrr, hrid, hrts, hrsub⟩ := hmatch e heE heres
    have hrsubL : List.Sublist [r, e] L := pair_sublist_insertionSort hrts E hrsub
    have hrne : r ≠ e := by
      intro hcon
      rw [hcon, heres] at hrr
      exact absurd hrr (by simp)
    have hcount : L.count e ≤ 1 := by
      have h1 : (L.filter fun x => !x.isRaise).count e = L.count e :=
        List.count_filter (by simp [heres])
      rw [← h1]
      exact List.nodup_iff_count_le_one.mp hndL e
    have hrP : r ∈ P := mem_take_of_pair_sublist L k r e hrne hcount hrsubL heP
    exact ⟨r, List.mem_filter.mpr ⟨hrP, by simp [hrr]⟩, hrid⟩
  have hslen : s.toFinset.card = s.length := List.toFinset_card_of_nodup hs_nodup
  set f : TEvent → TEvent := fun e =>
    if h : ∃ r, r ∈ t ∧ r.ticketId = e.ticketId then h.choose else e with hf
  have hfspec : ∀ e ∈ s, f e ∈ t ∧ (f e).ticketId = e.ticketId := by
    intro e he
    obtain ⟨r, hrt, hrid⟩ := hkey e he
    have hex : ∃ r, r ∈ t ∧ r.ticketId = e.ticketId := ⟨r, hrt, hrid⟩
    rw [hf]
    simp only [dif_pos hex]
    exact hex.choose_spec
  have hmapsto : ∀ e ∈ s.toFinset, f e ∈ t.toFinset := by
    intro e he
    rw [List.mem_toFinset] at he
    rw [List.mem_toFinset]
    exact (hfspec e he).1
  have hinjOn : Set.InjOn f s.toFinset := by
    intro e₁ he₁ e₂ he₂ hfe
    rw [Finset.mem_coe, List.mem_toFinset] at he₁ he₂
    have h₁ := hfspec e₁ he₁
    have h₂ := hfspec e₂ he₂
    have hid : e₁.ticketId = e₂.ticketId := by
      rw [← h₁.2, ← h₂.2, hfe]
    have he₁L : e₁ ∈ L.filter (fun x => !x.isRaise) := hsL.subset he₁
    have he₂L : e₂ ∈ L.filter (fun x => !x.isRaise) := hsL.subset he₂
    exact List.inj_on_of_nodup_map hndLmap he₁L he₂L hid
  have hcard : s.toFinset.card ≤ t.toFinset.card :=
    Finset.card_le_card_of_injOn f hmapsto hinjOn
  have htlen : t.toFinset.card ≤ t.length := List.toFinset_card_le t
  rw [List.countP_eq_length_filter, List.countP_eq_length_filter]
  calc s.length = s.toFinset.card := hslen.symm
    _ ≤ t.toFinset.card := hcard
    _ ≤ t.length := htlen

end Tickets

end SyncoraBot

namespace SyncoraBot

namespace Tickets

theorem Inv_mono {idGen : ℕ → String} {months : List MonthInput} {s : GenState}
    {B B' : ℚ} (h : Inv idGen months s B) (hBB : B ≤ B') : Inv idGen months s B' := by
  obtain ⟨h1, h2, h3, h4, h5, h6⟩ := h
  exact ⟨h1, h2, h3, fun tk htk => le_trans (h4 tk htk) hBB, h5, h6⟩

theorem ids_nodup_of_range {idGen : ℕ → String} {R : List RaisedTicket}
    (h : R.map (fun tk => tk.id) = (List.range R.length).map (fun j => idGen (1 + j)))
    (hinj : Function.Injective idGen) : (R.map fun tk => tk.id).Nodup := by
  rw [h]
  apply List.Nodup.map
  · intro a b hab
    have := hinj hab
    omega
  · exact List.nodup_range _

theorem raiseOne_events (idGen : ℕ → String) (m : MonthInput) (k : ℕ) (s : GenState) :
    (raiseOne idGen m k s).events = s.events ++
      [raiseEventOf ⟨idGen s.ticketCounter, m.emailDraw k, m.usernameDraw k,
        m.raiseDraw k⟩] := rfl

theorem raiseOne_raised (idGen : ℕ → String) (m : MonthInput) (k : ℕ) (s : GenState) :
    (raiseOne idGen m k s).raisedTickets = s.raisedTickets ++
      [⟨idGen s.ticketCounter, m.emailDraw k, m.usernameDraw k, m.raiseDraw k⟩] := rfl

theorem raiseOne_counter (idGen : ℕ → String) (m : MonthInput) (k : ℕ) (s : GenState) :
    (raiseOne idGen m k s).ticketCounter = s.ticketCounter + 1 := rfl

theorem raiseOne_inv {idGen : ℕ → String} {months : List MonthInput} {m : MonthInput}
    {k : ℕ} {s : GenState} {B : ℚ} (hinv : Inv idGen months s B) (hok : MonthOk m)
    (hB : B ≤ m.monthEnd) : Inv idGen months (raiseOne idGen m k s) m.monthEnd := by
  obtain ⟨h1, h2, h3, h4, h5, h6⟩ := hinv
  obtain ⟨hse, hraise, hres, hshuf⟩ := hok
  set tk : RaisedTicket := ⟨idGen s.ticketCounter, m.emailDraw k, m.usernameDraw k,
    m.raiseDraw k⟩ with htk
  refine ⟨?_, ?_, ?_, ?_, ?_, ?_⟩ <;>
    simp only [raiseOne_events, raiseOne_raised, raiseOne_counter, ← htk]
  · rw [List.filter_append, List.map_append, h1]
    simp [raiseEventOf]
  · simp only [List.length_append, List.length_singleton, h2]
    omega
  · rw [List.map_append, h3]
    have hlen : (s.raisedTickets ++ [tk]).length = s.raisedTickets.length + 1 := by
      simp
    rw [hlen, List.range_succ, List.map_append]
    have hid : tk.id = idGen (1 + s.raisedTickets.length) := by
      rw [htk]
      simp only []
      rw [h2]
    simp [hid]
    rw [h2]
  · intro tk₀ htk₀
    rcases List.mem_append.mp htk₀ with h | h
    · exact le_trans (h4 tk₀ h) hB
    · rw [List.mem_singleton] at h
      rw [h, htk]
      exact (hraise k).2
  · rw [List.filter_append]
    have hnil : ([raiseEventOf tk].filter fun e => !e.isRaise) = [] := by
      simp [raiseEventOf]
    rw [hnil, List.append_nil]
    exact h5
  · intro e hmem hr
    rcases List.mem_append.mp hmem with h | h
    · obtain ⟨tk₀, htkR, hid, hsub, mm, hmm, hw1, hw2⟩ := h6 e h hr
      exact ⟨tk₀, List.mem_append_left _ htkR, hid,
        hsub.trans (List.sublist_append_left _ _), mm, hmm, hw1, hw2⟩
    · rw [List.mem_singleton] at h
      rw [h] at hr
      simp [raiseEventOf] at hr

theorem raiseLoop_inv {idGen : ℕ → String} {months : List MonthInput} {m : MonthInput}
    (hok : MonthOk m) :
    ∀ (n k : ℕ) (s : GenState) (B : ℚ), Inv idGen months s B → B ≤ m.monthEnd →
      Inv idGen months (raiseLoop idGen m k n s) m.monthEnd := by
  intro n
  induction n with
  | zero =>
    intro k s B hinv hB
    rw [raiseLoop]
    exact Inv_mono hinv hB
  | succ n ih =>
    intro k s B hinv hB
    rw [raiseLoop]
    exact ih (k + 1) (raiseOne idGen m k s) m.monthEnd
      (raiseOne_inv hinv ⟨hok.1, hok.2.1, hok.2.2.1, hok.2.2.2⟩ hB) le_rfl

theorem unresolved_no_resolve {s : GenState} :
    ∀ tk ∈ unresolvedOf s, ∀ e ∈ s.events, e.isRaise = false → e.ticketId ≠ tk.id := by
  intro tk htk e he hres hcon
  have hb := List.of_mem_filter htk
  have hany : s.events.any (fun e => !e.isRaise && e.ticketId == tk.id) = false := by
    simpa [isResolvedIn] using hb
  have hfalse := List.any_eq_false.mp hany e he
  apply hfalse
  simp [hres, hcon]

theorem monthResolve_inv {idGen : ℕ → String} {months : List MonthInput}
    {m : MonthInput} {s : GenState} (hinv : Inv idGen months s m.monthEnd)
    (hok : MonthOk m) (hm : m ∈ months) (hinj : Function.Injective idGen) :
    Inv idGen months (monthResolve m s) m.monthEnd := by
  obtain ⟨h1, h2, h3, h4, h5, h6⟩ := hinv
  obtain ⟨hse, hraise, hres, hshuf⟩ := hok
  set U := unresolvedOf s with hU
  set T := (m.shuffleDraw U).take (min m.ticketsResolved U.length) with hT
  set N := resolveEventsFor m 0 T with hN
  have hstate : monthResolve m s = { s with events := s.events ++ N } := rfl
  have hTsubU : ∀ tk ∈ T, tk ∈ U := by
    intro tk htk
    have hmem : tk ∈ m.shuffleDraw U := (List.take_sublist _ _).subset htk
    exact (hshuf U).subset hmem
  have hTsubR : ∀ tk ∈ T, tk ∈ s.raisedTickets := fun tk htk =>
    List.mem_of_mem_filter (hTsubU tk htk)
  have hNres : ∀ e ∈ N, e.isRaise = false := resolveEventsFor_not_raise m 0 T
  have hNids : N.map (fun e => e.ticketId) = T.map (fun tk => tk.id) :=
    resolveEventsFor_map_ticketId m 0 T
  have hRids : (s.raisedTickets.map fun tk => tk.id).Nodup := ids_nodup_of_range h3 hinj
  have hTids : (T.map fun tk => tk.id).Nodup := by
    have hUsub : List.Sublist U s.raisedTickets := List.filter_sublist _
    have hUids : (U.map fun tk => tk.id).Nodup := hRids.sublist (hUsub.map _)
    have hSids : ((m.shuffleDraw U).map fun tk => tk.id).Nodup :=
      (((hshuf U).map _).nodup_iff).mpr hUids
    exact hSids.sublist ((List.take_sublist _ _).map _)
  have hTnoOld : ∀ tk ∈ T, ∀ e ∈ s.events, e.isRaise = false → e.ticketId ≠ tk.id :=
    fun tk htk => unresolved_no_resolve tk (hTsubU tk htk)
  rw [hstate]
  refine ⟨?_, h2, h3, h4, ?_, ?_⟩
  · show (s.events ++ N).filter (fun e => e.isRaise) = _
    rw [List.filter_append, h1]
    have hnil : N.filter (fun e => e.isRaise) = [] := by
      rw [List.filter_eq_nil_iff]
      intro e he
      simp [hNres e he]
    rw [hnil, List.append_nil]
  · show (((s.events ++ N).filter fun e => !e.isRaise).map (fun e => e.ticketId)).Nodup
    rw [List.filter_append]
    have hself : N.filter (fun e => !e.isRaise) = N := by
      rw [List.filter_eq_self]
      intro e he
      simp [hNres e he]
    rw [hself, List.map_append, List.nodup_append]
    refine ⟨h5, by rw [hNids]; exact hTids, ?_⟩
    intro x hxold hxnew
    rw [hNids] at hxnew
    obtain ⟨tk, htkT, htkid⟩ := List.mem_map.mp hxnew
    obtain ⟨e, heold, heid⟩ := List.mem_map.mp hxold
    have heE : e ∈ s.events := List.mem_of_mem_filter heold
    have heres : e.isRaise = false := by
      have hb := List.of_mem_filter heold
      simpa using hb
    exact hTnoOld tk htkT e heE heres (by rw [heid, htkid])
  · intro e hmem hr
    rcases List.mem_append.mp hmem with h | h
    · obtain ⟨tk, htkR, hid, hsub, mm, hmm, hw1, hw2⟩ := h6 e h hr
      exact ⟨tk, htkR, hid, hsub.trans (List.sublist_append_left _ _),
        mm, hmm, hw1, hw2⟩
    · obtain ⟨jj, tk, htkT, heq⟩ := mem_resolveEventsFor m 0 T e h
      have htkR : tk ∈ s.raisedTickets := hTsubR tk htkT
      have htkEnd : tk.timestamp ≤ m.monthEnd := h4 tk htkR
      have hrs_le : max tk.timestamp m.monthStart ≤ m.monthEnd := max_le htkEnd hse
      have hdnn : 0 ≤ m.resolveDraw jj *
          (m.monthEnd - max tk.timestamp m.monthStart) :=
        mul_nonneg (hres jj).1 (by linarith)
      have hdle : m.resolveDraw jj * (m.monthEnd - max tk.timestamp m.monthStart) ≤
          m.monthEnd - max tk.timestamp m.monthStart :=
        mul_le_of_le_one_left (by linarith) (le_of_lt (hres jj).2)
      have hraiseMem : raiseEventOf tk ∈ s.events := by
        have hmap : raiseEventOf tk ∈ s.raisedTickets.map raiseEventOf :=
          List.mem_map_of_mem _ htkR
        rw [← h1] at hmap
        exact List.mem_of_mem_filter hmap
      refine ⟨tk, htkR, ?_, ?_, m, hm, ?_, ?_⟩
      · rw [heq]
      · exact pair_sublist_append hraiseMem h
      · rw [heq]
        simp only []
        linarith
      · rw [heq]
        simp only []
        linarith

theorem processMonths_inv (idGen : ℕ → String) (months : List MonthInput)
    (hinj : Function.Injective idGen) :
    ∀ (rest : List MonthInput) (s : GenState) (B : ℚ),
      (∀ m ∈ rest, m ∈ months) → (∀ m ∈ rest, MonthOk m) →
      List.Chain' (fun a b => a.monthEnd ≤ b.monthStart) rest →
      (∀ m₀ ∈ rest.head?, B ≤ m₀.monthStart) →
      Inv idGen months s B →
      ∃ B', Inv idGen months
        (rest.foldl (fun s m => processMonth idGen m s) s) B' := by
  intro rest
  induction rest with
  | nil =>
    intro s B _ _ _ _ hinv
    exact ⟨B, hinv⟩
  | cons m rest ih =>
    intro s B hsub hok hch hhead hinv
    rw [List.foldl_cons]
    have hokm : MonthOk m := hok m (List.mem_cons_self _ _)
    have hBm : B ≤ m.monthStart := hhead m rfl
    have hstep : Inv idGen months (processMonth idGen m s) m.monthEnd := by
      rw [processMonth]
      exact monthResolve_inv
        (raiseLoop_inv hokm m.ticketsRaised 0 s B hinv (le_trans hBm hokm.1))
        hokm (hsub m (List.mem_cons_self _ _)) hinj
    rw [List.chain'_cons'] at hch
    exact ih (processMonth idGen m s) m.monthEnd
      (fun m' hm' => hsub m' (List.mem_cons_of_mem _ hm'))
      (fun m' hm' => hok m' (List.mem_cons_of_mem _ hm'))
      hch.2 hch.1 hstep

end Tickets

end SyncoraBot

namespace SyncoraBot

namespace Tickets

theorem filter_map_raise (R : List RaisedTicket) (b : String) :
    ((R.map raiseEventOf).filter fun x => x.ticketId == b) =
      (R.filter fun tk => tk.id == b).map raiseEventOf := by
  induction R with
  | nil => rfl
  | cons tk R ih =>
    by_cases h : (tk.id == b) = true <;>
      simp [raiseEventOf, List.filter_cons, h, ih]

/-- Claim C6: in the generated event list, every `ticket-resolved` event has
exactly one matching `ticket-raised` event (same ticket id, earlier in the
list, no later timestamp), is itself the only resolution of its ticket, has
its timestamp inside `[max(raiseTimestamp, periodStart), periodEnd]` of one
of the input periods, and in the timestamp-sorted sequence every initial
segment contains at least as many raised as resolved events. -/
theorem ticket_lifecycle (idGen : ℕ → String) (months : List MonthInput)
    (hinj : Function.Injective idGen) (hok : ∀ m ∈ months, MonthOk m)
    (hchrono : List.Chain' (fun a b => a.monthEnd ≤ b.monthStart) months) :
    (∀ e ∈ (runTickets idGen months).events, e.isRaise = false →
       List.countP (fun x => x.isRaise && x.ticketId == e.ticketId)
         (runTickets idGen months).events = 1 ∧
       List.countP (fun x => !x.isRaise && x.ticketId == e.ticketId)
         (runTickets idGen months).events = 1 ∧
       ∃ r, r.isRaise = true ∧ r.ticketId = e.ticketId ∧ r.timestamp ≤ e.timestamp ∧
         List.Sublist [r, e] (runTickets idGen months).events ∧
         ∃ m ∈ months, max r.timestamp m.monthStart ≤ e.timestamp ∧
           e.timestamp ≤ m.monthEnd) ∧
    (∀ k, List.countP (fun x => !x.isRaise)
        ((sortByTs (runTickets idGen months).events).take k) ≤
      List.countP (fun x => x.isRaise)
        ((sortByTs (runTickets idGen months).events).take k)) := by
  have hinit : Inv idGen months ⟨[], [], 1⟩
      ((months.head?.map (fun m => m.monthStart)).getD 0) := by
    refine ⟨rfl, rfl, rfl, ?_, ?_, ?_⟩
    · intro tk htk
      exact absurd htk (List.not_mem_nil tk)
    · simp
    · intro e he
      exact absurd he (List.not_mem_nil e)
  obtain ⟨B', hinv⟩ := processMonths_inv idGen months hinj months ⟨[], [], 1⟩
    ((months.head?.map (fun m => m.monthStart)).getD 0)
    (fun m hm => hm) hok hchrono
    (fun m₀ hm₀ => by
      rw [Option.mem_def.mp hm₀]
      simp)
    hinit
  have hinvR : Inv idGen months (runTickets idGen months) B' := hinv
  obtain ⟨h1, h2, h3, h4, h5, h6⟩ := hinvR
  have hRids := ids_nodup_of_range h3 hinj
  constructor
  · intro e he hres
    obtain ⟨tk, htkR, hid, hsub, mm, hmm, hw1, hw2⟩ := h6 e he hres
    have hcount1 : List.countP (fun x => x.isRaise && x.ticketId == e.ticketId)
        (runTickets idGen months).events = 1 := by
      rw [List.countP_eq_length_filter]
      have hcongr : (runTickets idGen months).events.filter
          (fun x => x.isRaise && x.ticketId == e.ticketId) =
          ((runTickets idGen months).events.filter (fun x => x.isRaise)).filter
            (fun x => x.ticketId == e.ticketId) := by
        rw [List.filter_filter]
        apply List.filter_congr
        intro x hx
        rw [Bool.and_comm]
      rw [hcongr, h1, filter_map_raise, List.length_map]
      exact filter_key_length_one (fun tk => tk.id)
        (runTickets idGen months).raisedTickets e.ticketId hRids
        (hid ▸ List.mem_map_of_mem _ htkR)
    have hcount2 : List.countP (fun x => !x.isRaise && x.ticketId == e.ticketId)
        (runTickets idGen months).events = 1 := by
      rw [List.countP_eq_length_filter]
      have hcongr : (runTickets idGen months).events.filter
          (fun x => !x.isRaise && x.ticketId == e.ticketId) =
          ((runTickets idGen months).events.filter (fun x => !x.isRaise)).filter
            (fun x => x.ticketId == e.ticketId) := by
        rw [List.filter_filter]
        apply List.filter_congr
        intro x hx
        rw [Bool.and_comm]
      rw [hcongr]
      exact filter_key_length_one (fun x => x.ticketId)
        ((runTickets idGen months).events.filter (fun x => !x.isRaise)) e.ticketId h5
        (List.mem_map_of_mem _ (List.mem_filter.mpr ⟨he, by simp [hres]⟩))
    exact ⟨hcount1, hcount2, raiseEventOf tk, rfl, hid,
      le_trans (le_max_left _ _) hw1, hsub, mm, hmm, hw1, hw2⟩
  · intro k
    apply sorted_take_resolved_le_raised
    · exact h5
    · intro e he hres
      obtain ⟨tk, htkR, hid, hsub, mm, hmm, hw1, hw2⟩ := h6 e he hres
      have hraiseMem : raiseEventOf tk ∈ (runTickets idGen months).events := by
        have hmap : raiseEventOf tk ∈ (runTickets idGen months).raisedTickets.map
            raiseEventOf := List.mem_map_of_mem _ htkR
        rw [← h1] at hmap
        exact List.mem_of_mem_filter hmap
      exact ⟨raiseEventOf tk, hraiseMem, rfl, hid,
        le_trans (le_max_left _ _) hw1, hsub⟩

/-- Witness for C6: one month `[0, 100]` with one raise (at time 50) and one
resolution, identity shuffle, zero resolve draw, injective id generator. -/
theorem ticket_lifecycle_witness :
    (∀ e ∈ (runTickets wIdGen [wMonth]).events, e.isRaise = false →
       List.countP (fun x => x.isRaise && x.ticketId == e.ticketId)
         (runTickets wIdGen [wMonth]).events = 1 ∧
       List.countP (fun x => !x.isRaise && x.ticketId == e.ticketId)
         (runTickets wIdGen [wMonth]).events = 1 ∧
       ∃ r, r.isRaise = true ∧ r.ticketId = e.ticketId ∧ r.timestamp ≤ e.timestamp ∧
         List.Sublist [r, e] (runTickets wIdGen [wMonth]).events ∧
         ∃ m ∈ [wMonth], max r.timestamp m.monthStart ≤ e.timestamp ∧
           e.timestamp ≤ m.monthEnd) ∧
    (∀ k, List.countP (fun x => !x.isRaise)
        ((sortByTs (runTickets wIdGen [wMonth]).events).take k) ≤
      List.countP (fun x => x.isRaise)
        ((sortByTs (runTickets wIdGen [wMonth]).events).take k)) := by
  apply ticket_lifecycle
  · intro a b h
    have hdata := congrArg String.data h
    have hlen := congrArg List.length hdata
    simpa [wIdGen, List.length_replicate] using hlen
  · intro m hm
    rw [List.mem_singleton] at hm
    subst hm
    refine ⟨by norm_num [wMonth], fun k => by norm_num [wMonth],
      fun k => by norm_num [wMonth], fun l => ?_⟩
    show (wMonth.shuffleDraw l).Perm l
    exact List.Perm.refl l
  · exact List.chain'_singleton wMonth

end Tickets

end SyncoraBot
